import Mathlib

/-!
Shallow embedding of the condition-tree evaluator of `plansys2_problem_expert/Utils.cpp`
and the existential-quantifier lowering of `plansys2_pddl_parser/Exists.cpp`.

Modelling conventions:
* C++ `double` is modelled as `Rat` (the guards and arithmetic used by the claims are
  exact at the rationals involved).
* The evaluator's recursion is not structurally terminating on arbitrary trees (node
  ids may form cycles), so the interpreter takes a fuel argument; fuel is consumed on
  every recursive step and exhaustion yields `none`.  `none` also models C++ undefined
  behaviour (out-of-range `std::vector::operator[]`, `front()` on an empty string).
* The remote problem-expert client is an external collaborator (spec section 4.3/6);
  it is modelled as an abstract state machine `ProblemClient`.
-/

namespace plansys2

/-- Node kinds of the `plansys2_msgs::msg::Node` taxonomy (spec section 3);
`unknown` stands for any byte that is none of the listed constants. -/
inductive NodeType where
  | and
  | or
  | not
  | predicate
  | function
  | expression
  | functionModifier
  | number
  | constant
  | parameter
  | exists_
  | unknown
deriving DecidableEq, Repr

/-- Sub-discriminant of EXPRESSION nodes (`expression_type` field). -/
inductive ExprType where
  | compGE
  | compGT
  | compLE
  | compLT
  | compEQ
  | arithMult
  | arithDiv
  | arithAdd
  | arithSub
  | unknownExpr
deriving DecidableEq, Repr

/-- Sub-discriminant of FUNCTION_MODIFIER nodes (`modifier_type` field). -/
inductive ModType where
  | assign
  | increase
  | decrease
  | scaleUp
  | scaleDown
  | unknownMod
deriving DecidableEq, Repr

/-- `plansys2_msgs::msg::Param`: a parameter binding, a name plus a type string.
Message equality (`operator==`) compares both fields. -/
structure Param where
  name : String
  type : String
deriving DecidableEq, Repr

/-- `plansys2_msgs::msg::Node`.  Default field values mirror a default-constructed
message. -/
structure Node where
  node_type : NodeType := .unknown
  expression_type : ExprType := .unknownExpr
  modifier_type : ModType := .unknownMod
  node_id : Nat := 0
  name : String := ""
  parameters : List Param := []
  value : Rat := 0
  children : List Nat := []
deriving DecidableEq, Repr

/-- `plansys2_msgs::msg::Tree`: an append-only array of nodes referenced by index. -/
structure Tree where
  nodes : List Node
deriving DecidableEq, Repr

/-- Modelled from the spec: `parser::pddl::checkNodeEquality` lives in the
pddl-parser utility file that is not under `src/`; spec section 3 specifies the
structural match as "keyed on (name, parameter names) — ignoring tree bookkeeping". -/
def checkNodeEquality (a b : Node) : Bool :=
  a.name == b.name && (a.parameters.map Param.name) == (b.parameters.map Param.name)

/-- Modelled from the spec: the remote `ProblemExpertClient` (state backend boundary,
spec sections 4.3 and 6) is an external collaborator; it is abstracted as a record of
operations over an opaque client state `σ`.  `getFunction` is keyed directly on the
function node (the source keys it on the node's printed form). -/
structure ProblemClient (σ : Type) where
  existPredicate : σ → Node → Bool
  addPredicate : σ → Node → Bool × σ
  removePredicate : σ → Node → Bool × σ
  getFunction : σ → Node → Option Rat
  getInstances : σ → List Param
  updateFunction : σ → Node → Rat → σ

/-- The mutable state threaded through `evaluate`: the remote client's state and the
local `predicates` / `functions` vectors (both passed by reference in the source). -/
structure EState (σ : Type) where
  client : σ
  predicates : List Node
  functions : List Node
deriving DecidableEq

/-- The `(success, truth, value)` result triple. -/
abbrev EvalRes := Bool × Bool × Rat

/-- The division-by-near-zero guard threshold `1e-5` of the source. -/
def epsDiv : Rat := 1 / 100000

/-- `std::abs`, written so that it evaluates inside the kernel. -/
def ratAbs (q : Rat) : Rat := if q < 0 then -q else q

/-- `std::map` insertion-or-overwrite (`replace[k] = v`). -/
def mapSet : List (String × String) → String → String → List (String × String)
  | [], k, v => [(k, v)]
  | (k', v') :: m, k, v => if k' = k then (k, v) :: m else (k', v') :: mapSet m k v

/-- `std::map` lookup (`find` / `at`). -/
def mapFind : List (String × String) → String → Option String
  | [], _ => none
  | (k, v) :: m, key => if k = key then some v else mapFind m key

/-- In-place update of the element at an index; out-of-range indices leave the list
unchanged (such accesses do not occur on the reachable inputs). -/
def modifyAt {α : Type} : List α → Nat → (α → α) → List α
  | [], _, _ => []
  | x :: xs, 0, f => f x :: xs
  | x :: xs, n + 1, f => x :: modifyAt xs n f

/-- `std::find_if` followed by writing through the iterator: rewrite the first
element satisfying `p` with `f`; `none` when no element matches. -/
def updateFirst {α : Type} (p : α → Bool) (f : α → α) : List α → Option (List α)
  | [] => none
  | x :: xs => if p x then some (f x :: xs) else (updateFirst p f xs).map (x :: ·)

/-- `plansys2::cart_product` (Utils.cpp): `rvvi` is the accumulated final result,
`rvi` the current partial tuple, and the third argument the remaining input lists. -/
def cart_product : List (List String) → List String → List (List String) → List (List String)
  | rvvi, rvi, [] => rvvi ++ [rvi]
  | rvvi, rvi, me :: rest => me.foldl (fun acc x => cart_product acc (rvi ++ [x]) rest) rvvi

/-- The standard n-ary Cartesian product in nested-loop order (the last list's
elements vary fastest), written following the spec's words; an empty sequence of
lists yields the single empty tuple. -/
def cartesianSpec : List (List String) → List (List String)
  | [] => [[]]
  | l :: ls => (l.map (fun x => (cartesianSpec ls).map (fun t => x :: t))).flatten

/-- The per-candidate substitution map of the EXISTS case:
`replace[parameters[i].name] = parameters_values[i]`. -/
def buildReplace (params : List Param) (values : List String) : List (String × String) :=
  ((params.map Param.name).zip values).foldl (fun m kv => mapSet m kv.1 kv.2) []

/-- Parameter rewrite of one node in `replace_children_param`: position `i` of the
current parameter list is renamed when the name at position `i` of the original
parameter list is a key of the map. -/
def updateParamsList (cur orig : List Param) (repl : List (String × String)) : List Param :=
  (cur.zip orig).map (fun co =>
    match mapFind repl co.2.name with
    | some v => { co.1 with name := v }
    | none => co.1)

/-- Apply `updateParamsList` to the node at `nid`. -/
def updateNodeParams (t : Tree) (nid : Nat) (orig : List Param) (repl : List (String × String)) :
    Tree :=
  { nodes := modifyAt t.nodes nid (fun nd =>
      { nd with parameters := updateParamsList nd.parameters orig repl }) }

/-- `plansys2::replace_children_param`, processed as a work list of node ids: for
each node, descend into all children first, then rewrite the node's own parameters
(keys taken from the input tree of that call, as in the source).  Fuel bounds the
recursion depth; a cyclic tree exhausts it. -/
def replaceMany : Nat → Tree → List Nat → List (String × String) → Option Tree
  | 0, _, _, _ => none
  | _ + 1, tree, [], _ => some tree
  | fuel + 1, tree, nid :: rest, repl =>
    match tree.nodes.get? nid with
    | none => none
    | some nd =>
      let step : Option Tree :=
        if nd.children.length > 0 then replaceMany fuel tree nd.children repl else some tree
      match step with
      | none => none
      | some t1 => replaceMany fuel (updateNodeParams t1 nid nd.parameters repl) rest repl

/-- `plansys2::replace_children_param` on a single root node id. -/
def replace_children_param (fuel : Nat) (tree : Tree) (nid : Nat)
    (repl : List (String × String)) : Option Tree :=
  replaceMany fuel tree [nid] repl

/-- The EXISTS case's local-state instance collection: every distinct parameter
(compared by full message equality) of any currently held predicate, in first
occurrence order. -/
def gatherInstances (preds : List Node) : List Param :=
  preds.foldl (fun acc p =>
    p.parameters.foldl (fun acc q => if acc.contains q then acc else acc ++ [q]) acc) []

/-- The per-quantified-variable candidate lists of the EXISTS case: one copy of the
instance-name list per quantified parameter. -/
def existsCandidateLists {σ : Type} (pc : ProblemClient σ) (us : Bool) (st : EState σ)
    (params : List Param) : List (List String) :=
  let instances := if us = false then pc.getInstances st.client else gatherInstances st.predicates
  params.map (fun _ => instances.map Param.name)

/-- The grounding step of one EXISTS candidate tuple: build the substitution map,
produce the grounded copy of the tree, and fetch the EXISTS node's first child id in
it (`tree_replaced.nodes[node_id].children[0]`); `none` models the source's
undefined out-of-range accesses. -/
def candidateChild (fuel : Nat) (tree : Tree) (nid : Nat) (params : List Param)
    (values : List String) : Option (Tree × Nat) :=
  match replace_children_param fuel tree nid (buildReplace params values) with
  | none => none
  | some tr =>
    match tr.nodes.get? nid with
    | none => none
    | some nd' =>
      match nd'.children.get? 0 with
      | none => none
      | some c => some (tr, c)

/-- The PREDICATE leaf case of `evaluate` (test or mutate a fact). -/
def predicateCase {σ : Type} (pc : ProblemClient σ) (ap us neg : Bool) (nd : Node)
    (st : EState σ) : Option (EvalRes × EState σ) :=
  if ap then
    if us then
      if neg then
        some ((true, false, 0),
          { st with predicates := st.predicates.eraseP (fun p => checkNodeEquality p nd) })
      else
        if st.predicates.any (fun p => checkNodeEquality p nd) then
          some ((true, true, 0), st)
        else
          some ((true, true, 0), { st with predicates := st.predicates ++ [nd] })
    else
      if neg then
        let rc := pc.removePredicate st.client nd
        some ((rc.1, false, 0), { st with client := rc.2 })
      else
        let rc := pc.addPredicate st.client nd
        some ((rc.1, true, 0), { st with client := rc.2 })
  else
    if us then
      some ((true, neg != st.predicates.any (fun p => checkNodeEquality p nd), 0), st)
    else
      some ((true, neg != pc.existPredicate st.client nd, 0), st)

/-- The FUNCTION leaf case of `evaluate` (read a numeric value by structural match;
`success = false` when the function is unknown). -/
def functionCase {σ : Type} (pc : ProblemClient σ) (us : Bool) (nd : Node) (st : EState σ) :
    Option (EvalRes × EState σ) :=
  if us then
    match st.functions.find? (fun f => checkNodeEquality f nd) with
    | some f => some ((true, false, f.value), st)
    | none => some ((false, false, 0), st)
  else
    match pc.getFunction st.client nd with
    | some v => some ((true, false, v), st)
    | none => some ((false, false, 0), st)

/-- The EXPRESSION case of `evaluate` after both operands have been evaluated as
`l` and `r` (threaded state `st2`). -/
def expressionCase {σ : Type} (tree : Tree) (nd : Node) (neg : Bool) (l r : EvalRes)
    (st2 : EState σ) : Option (EvalRes × EState σ) :=
  if !l.1 || !r.1 then some ((false, false, 0), st2)
  else
    match nd.expression_type with
    | .compGE => some ((true, neg != decide (r.2.2 ≤ l.2.2), 0), st2)
    | .compGT => some ((true, neg != decide (r.2.2 < l.2.2), 0), st2)
    | .compLE => some ((true, neg != decide (l.2.2 ≤ r.2.2), 0), st2)
    | .compLT => some ((true, neg != decide (l.2.2 < r.2.2), 0), st2)
    | .compEQ =>
      match nd.children.get? 0, nd.children.get? 1 with
      | some i0, some i1 =>
        match tree.nodes.get? i0, tree.nodes.get? i1 with
        | some a, some b =>
          if (a.node_type == .constant || a.node_type == .parameter) &&
              (b.node_type == .constant || b.node_type == .parameter) then
            match
              (if a.node_type == .parameter then (a.parameters.get? 0).map Param.name
               else some a.name),
              (if b.node_type == .parameter then (b.parameters.get? 0).map Param.name
               else some b.name) with
            | some na, some nb => some ((true, neg != (nb == na), 0), st2)
            | _, _ => none
          else if a.node_type == .number && b.node_type == .number then
            some ((true, neg != decide (l.2.2 = r.2.2), 0), st2)
          else
            some ((false, false, 0), st2)
        | _, _ => none
      | _, _ => none
    | .arithMult => some ((true, false, l.2.2 * r.2.2), st2)
    | .arithDiv =>
      if epsDiv < ratAbs r.2.2 then some ((true, false, l.2.2 / r.2.2), st2)
      else some ((false, false, 0), st2)
    | .arithAdd => some ((true, false, l.2.2 + r.2.2), st2)
    | .arithSub => some ((true, false, l.2.2 - r.2.2), st2)
    | .unknownExpr => some ((false, false, 0), st2)

/-- The FUNCTION_MODIFIER case of `evaluate` after both operands have been evaluated;
under `apply` the computed value is committed to the left operand's function identity
(failure to locate it in local-state mode is an evaluation failure; the remote
update's own result is discarded by the source). -/
def modifierCase {σ : Type} (pc : ProblemClient σ) (tree : Tree) (nd : Node) (ap us : Bool)
    (l r : EvalRes) (st2 : EState σ) : Option (EvalRes × EState σ) :=
  if !l.1 || !r.1 then some ((false, false, 0), st2)
  else
    let sv : Bool × Rat :=
      match nd.modifier_type with
      | .assign => (true, r.2.2)
      | .increase => (true, l.2.2 + r.2.2)
      | .decrease => (true, l.2.2 - r.2.2)
      | .scaleUp => (true, l.2.2 * r.2.2)
      | .scaleDown => if epsDiv < ratAbs r.2.2 then (true, l.2.2 / r.2.2) else (false, 0)
      | .unknownMod => (false, 0)
    if sv.1 && ap then
      match nd.children.get? 0 with
      | none => none
      | some c0 =>
        match tree.nodes.get? c0 with
        | none => none
        | some lnd =>
          if us then
            match updateFirst (fun f => checkNodeEquality f lnd)
                (fun f => { f with value := sv.2 }) st2.functions with
            | some fs => some ((true, false, sv.2), { st2 with functions := fs })
            | none => some ((false, false, sv.2), st2)
          else
            some ((true, false, sv.2),
              { st2 with client := pc.updateFunction st2.client lnd sv.2 })
    else
      some ((sv.1, false, sv.2), st2)

/-- Work items of the interpreter: a node evaluation, the AND/OR child folds, and
the EXISTS candidate loop (each loop in the source becomes a recursive job so that
the whole interpreter is structurally recursive on fuel). -/
inductive Job (σ : Type) where
  | eval (tree : Tree) (ap us : Bool) (nid : Nat) (neg : Bool) (st : EState σ)
  | conj (tree : Tree) (ap us neg : Bool) (cs : List Nat) (s t : Bool) (st : EState σ)
  | disj (tree : Tree) (ap us neg : Bool) (cs : List Nat) (s t : Bool) (st : EState σ)
  | existsLoop (tree : Tree) (ap us : Bool) (nid : Nat) (neg : Bool) (params : List Param)
      (tuples : List (List String)) (st : EState σ)

/-- The recursive tree evaluator `plansys2::evaluate`, fuelled.  The `tree.nodes`
emptiness check precedes everything (as in the source); base cases of the folds do
not consume fuel.  The PARAMETER case with an unresolved (or absent) first parameter
falls through into the EXISTS case exactly as the source's missing `return` does. -/
def run {σ : Type} (pc : ProblemClient σ) : Nat → Job σ → Option (EvalRes × EState σ)
  | 0, .eval tree _ _ _ _ st =>
    if tree.nodes.isEmpty then some ((true, true, 0), st) else none
  | 0, .conj _ _ _ _ [] s t st => some ((s, t, 0), st)
  | 0, .conj _ _ _ _ (_ :: _) _ _ _ => none
  | 0, .disj _ _ _ _ [] s t st => some ((s, t, 0), st)
  | 0, .disj _ _ _ _ (_ :: _) _ _ _ => none
  | 0, .existsLoop _ _ _ _ _ _ [] st => some ((true, false, 0), st)
  | 0, .existsLoop _ _ _ _ _ _ (_ :: _) _ => none
  | fuel + 1, .eval tree ap us nid neg st =>
    if tree.nodes.isEmpty then some ((true, true, 0), st)
    else
      match tree.nodes.get? nid with
      | none => none
      | some nd =>
        match nd.node_type with
        | .and => run pc fuel (.conj tree ap us neg nd.children true true st)
        | .or => run pc fuel (.disj tree ap us neg nd.children true false st)
        | .not =>
          match nd.children.get? 0 with
          | none => none
          | some c => run pc fuel (.eval tree ap us c (!neg) st)
        | .predicate => predicateCase pc ap us neg nd st
        | .function => functionCase pc us nd st
        | .expression =>
          match nd.children.get? 0, nd.children.get? 1 with
          | some c0, some c1 =>
            match run pc fuel (.eval tree ap us c0 neg st) with
            | none => none
            | some (l, st1) =>
              match run pc fuel (.eval tree ap us c1 neg st1) with
              | none => none
              | some (r, st2) => expressionCase tree nd neg l r st2
          | _, _ => none
        | .functionModifier =>
          match nd.children.get? 0, nd.children.get? 1 with
          | some c0, some c1 =>
            match run pc fuel (.eval tree ap us c0 neg st) with
            | none => none
            | some (l, st1) =>
              match run pc fuel (.eval tree ap us c1 neg st1) with
              | none => none
              | some (r, st2) => modifierCase pc tree nd ap us l r st2
          | _, _ => none
        | .number => some ((true, true, nd.value), st)
        | .constant => some ((true, decide (0 < nd.name.length), 0), st)
        | .parameter =>
          match nd.parameters with
          | [] =>
            run pc fuel (.existsLoop tree ap us nid neg nd.parameters
              (cart_product [] [] (existsCandidateLists pc us st nd.parameters)) st)
          | p :: _ =>
            match p.name.data with
            | [] => none
            | c :: _ =>
              if c != '?' then some ((true, true, 0), st)
              else
                run pc fuel (.existsLoop tree ap us nid neg nd.parameters
                  (cart_product [] [] (existsCandidateLists pc us st nd.parameters)) st)
        | .exists_ =>
          run pc fuel (.existsLoop tree ap us nid neg nd.parameters
            (cart_product [] [] (existsCandidateLists pc us st nd.parameters)) st)
        | .unknown => some ((false, false, 0), st)
  | fuel + 1, .conj tree ap us neg cs s t st =>
    match cs with
    | [] => some ((s, t, 0), st)
    | c :: cs' =>
      match run pc fuel (.eval tree ap us c neg st) with
      | none => none
      | some (r, st') => run pc fuel (.conj tree ap us neg cs' (s && r.1) (t && r.2.1) st')
  | fuel + 1, .disj tree ap us neg cs s t st =>
    match cs with
    | [] => some ((s, t, 0), st)
    | c :: cs' =>
      match run pc fuel (.eval tree ap us c neg st) with
      | none => none
      | some (r, st') => run pc fuel (.disj tree ap us neg cs' (s && r.1) (t || r.2.1) st')
  | fuel + 1, .existsLoop tree ap us nid neg params tuples st =>
    match tuples with
    | [] => some ((true, false, 0), st)
    | values :: rest =>
      match candidateChild fuel tree nid params values with
      | none => none
      | some trc =>
        match run pc fuel (.eval trc.1 ap us trc.2 neg st) with
        | none => none
        | some (r, st') =>
          if r.2.1 then some (r, st')
          else run pc fuel (.existsLoop tree ap us nid neg params rest st')

/-- `plansys2::evaluate` (the 8-argument overload of Utils.cpp). -/
def evaluate {σ : Type} (pc : ProblemClient σ) (fuel : Nat) (tree : Tree) (ap us : Bool)
    (nid : Nat) (neg : Bool) (st : EState σ) : Option (EvalRes × EState σ) :=
  run pc fuel (.eval tree ap us nid neg st)

/-- The EXISTS case's candidate loop, as a function of the remaining tuples. -/
def evalExistsLoop {σ : Type} (pc : ProblemClient σ) (fuel : Nat) (tree : Tree) (ap us : Bool)
    (nid : Nat) (neg : Bool) (params : List Param) (tuples : List (List String))
    (st : EState σ) : Option (EvalRes × EState σ) :=
  run pc fuel (.existsLoop tree ap us nid neg params tuples st)

/-- One candidate tuple of the EXISTS loop: build the substitution map, ground the
subtree, and evaluate the grounded body (the EXISTS node's first child). -/
def evalCandidate {σ : Type} (pc : ProblemClient σ) (fuel : Nat) (tree : Tree) (ap us : Bool)
    (nid : Nat) (neg : Bool) (params : List Param) (values : List String) (st : EState σ) :
    Option (EvalRes × EState σ) :=
  match candidateChild fuel tree nid params values with
  | none => none
  | some trc => run pc fuel (.eval trc.1 ap us trc.2 neg st)

/-- Evaluate a list of child node ids in order, threading the state, and collect
every child's result triple. -/
def evalChildren {σ : Type} (pc : ProblemClient σ) :
    Nat → Tree → Bool → Bool → Bool → List Nat → EState σ →
    Option (List EvalRes × EState σ)
  | _, _, _, _, _, [], st => some ([], st)
  | 0, _, _, _, _, _ :: _, _ => none
  | fuel + 1, tree, ap, us, neg, c :: cs, st =>
    match run pc fuel (.eval tree ap us c neg st) with
    | none => none
    | some (r, st') =>
      match evalChildren pc fuel tree ap us neg cs st' with
      | none => none
      | some (rs, st'') => some (r :: rs, st'')

/-- The C++ `int` → `size_t` conversion applied in `params[i] < replace.size()` and
`replace[params[i]]` of `Exists::getTree` (a negative `int` wraps to a huge value). -/
def intAsSizeT (p : Int) : Nat := (p % (2 : Int) ^ 64).toNat

/-- The parameter binding built for quantified-variable slot `p` at position `i` of
`Exists::getTree`: the caller-supplied replacement name when both `i` and the slot
index are within the substitution list (a negative slot fails the wrapped unsigned
comparison), the empty default name in the unreachable negative sub-branch, and the
symbolic placeholder `?<slot>` otherwise. -/
def existsParamFor (replace : List String) (i : Nat) (p : Int) : Param :=
  if i < replace.length ∧ intAsSizeT p < replace.length then
    if 0 ≤ p then { name := replace.getD (intAsSizeT p) "", type := "" }
    else { name := "", type := "" }
  else { name := "?" ++ toString p, type := "" }

/-- `Exists::getTree` (Exists.cpp): append one EXISTS node (id = current array
length) carrying the resolved quantified parameters, lower the nested condition into
the same array, and record its root id as the EXISTS node's single child.  The
polymorphic nested condition is abstracted as `condLower`, which maps a tree to the
extended tree and the lowered subtree's root id.  The returned `Node` is the value
of the shared pointer the source returns (its own `children` field is never
updated — the push goes into the array's copy). -/
def existsGetTree (condLower : Tree → Tree × Nat) (params : List Int) (tree : Tree)
    (replace : List String) : Tree × Node :=
  let nid := tree.nodes.length
  let node : Node :=
    { node_type := .exists_, node_id := nid,
      parameters := params.enum.map (fun ip => existsParamFor replace ip.1 ip.2) }
  let t1 : Tree := { nodes := tree.nodes ++ [node] }
  let res := condLower t1
  ({ nodes := modifyAt res.1.nodes nid (fun nd => { nd with children := nd.children ++ [res.2] }) },
    node)

/-- A trivial remote client over the unit state, used to instantiate theorems at
concrete inputs. -/
def unitClient : ProblemClient Unit :=
  { existPredicate := fun _ _ => false
    addPredicate := fun c _ => (true, c)
    removePredicate := fun c _ => (true, c)
    getFunction := fun _ _ => none
    getInstances := fun _ => []
    updateFunction := fun c _ _ => c }

/-- The fact `P(a)` as a predicate node. -/
def paNode : Node := { node_type := .predicate, name := "p", parameters := [⟨"a", "t"⟩] }

/-- A tree holding the single PARAMETER node whose parameter is the unresolved
placeholder `?0`. -/
def treeParam : Tree := ⟨[{ node_type := .parameter, parameters := [⟨"?0", "t"⟩] }]⟩

/-- A local state holding the single fact `P(a)` (so the instance collection of the
EXISTS case is non-empty). -/
def stPa : EState Unit := ⟨(), [paNode], []⟩

/-- The tree `not (P a)`: a NOT node over a PREDICATE node. -/
def treeNotP : Tree := ⟨[{ node_type := .not, children := [1] }, paNode]⟩

/-- The tree `(P a)` alone. -/
def treeP : Tree := ⟨[paNode]⟩

/-- The tree `exists (?0) (P ?0)`: an EXISTS node over a PREDICATE body. -/
def treeEx : Tree :=
  ⟨[{ node_type := .exists_, parameters := [⟨"?0", ""⟩], children := [1] },
    { node_type := .predicate, name := "p", parameters := [⟨"?0", ""⟩] }]⟩

/-- The tree `(scale-down f 2)` with numeric operands `6` and `2`:
a FUNCTION_MODIFIER node over two NUMBER children. -/
def treeSD : Tree :=
  ⟨[{ node_type := .functionModifier, modifier_type := .scaleDown, children := [1, 2] },
    { node_type := .number, value := 6 },
    { node_type := .number, value := 2 }]⟩

/-- The tree `(6 / 1)`: an ARITH_DIV EXPRESSION node over two NUMBER children. -/
def treeDiv : Tree :=
  ⟨[{ node_type := .expression, expression_type := .arithDiv, children := [1, 2] },
    { node_type := .number, value := 6 },
    { node_type := .number, value := 1 }]⟩

/-- The tree `and (P a) (P a)` used to instantiate the AND/OR characterization. -/
def treeAnd : Tree := ⟨[{ node_type := .and, children := [1, 2] }, paNode, paNode]⟩

/-- The tree `not (not (P a))`. -/
def treeNN : Tree :=
  ⟨[{ node_type := .not, children := [1] }, { node_type := .not, children := [2] }, paNode]⟩

/-- A concrete nested-condition lowering used to instantiate `existsGetTree`: it
appends one predicate node and returns its id. -/
def condLowerP : Tree → Tree × Nat :=
  fun t => ({ nodes := t.nodes ++ [paNode] }, t.nodes.length)

lemma cart_product_eq_spec (ls : List (List String)) :
    ∀ (rvvi : List (List String)) (rvi : List String),
    cart_product rvvi rvi ls = rvvi ++ (cartesianSpec ls).map (fun t => rvi ++ t) := by
  induction ls with
  | nil =>
    intro rvvi rvi
    simp [cart_product, cartesianSpec]
  | cons me rest ih =>
    intro rvvi rvi
    have inner : ∀ (xs : List String) (a : List (List String)),
        xs.foldl (fun acc x => cart_product acc (rvi ++ [x]) rest) a
          = a ++ (xs.map (fun x => (cartesianSpec rest).map (fun t => rvi ++ x :: t))).flatten := by
      intro xs
      induction xs with
      | nil => intro a; simp
      | cons x xs ihx =>
        intro a
        have hx1 : ∀ t : List String, (rvi ++ [x]) ++ t = rvi ++ x :: t := by
          intro t; simp
        simp only [List.foldl_cons]
        rw [ih, ihx]
        simp only [hx1, List.map_cons, List.flatten_cons, List.append_assoc]
    show me.foldl (fun acc x => cart_product acc (rvi ++ [x]) rest) rvvi = _
    rw [inner]
    have hfun : ((List.map fun t => rvi ++ t) ∘ fun x =>
          List.map (fun t => x :: t) (cartesianSpec rest))
        = fun x => List.map (fun t => rvi ++ x :: t) (cartesianSpec rest) := by
      funext x
      simp [List.map_map, Function.comp_def]
    simp only [cartesianSpec, List.map_flatten, List.map_map, hfun]

lemma cartesianSpec_length (ls : List (List String)) :
    (cartesianSpec ls).length = (ls.map List.length).prod := by
  induction ls with
  | nil => simp [cartesianSpec]
  | cons me rest ih =>
    simp only [cartesianSpec, List.length_flatten, List.map_map, List.map_cons,
      List.prod_cons]
    have : (me.map (fun x => ((cartesianSpec rest).map (fun t => x :: t)).length)).sum
        = (me.map (fun _ => (cartesianSpec rest).length)).sum := by
      simp
    rw [Function.comp_def]
    simp only [List.length_map]
    rw [List.map_const', List.sum_replicate, smul_eq_mul, ih]

lemma cartesianSpec_mem (ls : List (List String)) :
    ∀ t ∈ cartesianSpec ls, t.length = ls.length ∧
      ∀ i a li, t.get? i = some a → ls.get? i = some li → a ∈ li := by
  induction ls with
  | nil =>
    intro t ht
    simp only [cartesianSpec, List.mem_singleton] at ht
    subst ht
    refine ⟨rfl, ?_⟩
    intro i a li _ hli
    simp at hli
  | cons me rest ih =>
    intro t ht
    simp only [cartesianSpec, List.mem_flatten, List.mem_map] at ht
    obtain ⟨l, ⟨x, hx, rfl⟩, htl⟩ := ht
    simp only [List.mem_map] at htl
    obtain ⟨t', ht', rfl⟩ := htl
    obtain ⟨hlen, hget⟩ := ih t' ht'
    refine ⟨by simp [hlen], ?_⟩
    intro i a li ha hli
    cases i with
    | zero =>
      simp only [List.get?] at ha hli
      cases ha; cases hli
      exact hx
    | succ n =>
      simp only [List.get?] at ha hli
      exact hget n a li ha hli

/-- C8: `cart_product` computes the standard n-ary Cartesian product: it equals the
nested-loop-order product (last list varies fastest), its length is the product of
the input lengths, every tuple takes its i-th element from the i-th list, and an
empty sequence of input lists yields exactly the one empty tuple. -/
theorem cart_product_correct (ls : List (List String)) :
    cart_product [] [] ls = cartesianSpec ls ∧
    (cart_product [] [] ls).length = (ls.map List.length).prod ∧
    (∀ t ∈ cart_product [] [] ls, t.length = ls.length ∧
      ∀ i a li, t.get? i = some a → ls.get? i = some li → a ∈ li) ∧
    cart_product [] [] ([] : List (List String)) = [[]] := by
  have he : cart_product [] [] ls = cartesianSpec ls := by
    rw [cart_product_eq_spec]
    simp
  refine ⟨he, ?_, ?_, rfl⟩
  · rw [he, cartesianSpec_length]
  · intro t ht
    rw [he] at ht
    exact cartesianSpec_mem ls t ht

/-- C8 witness: the theorem instantiated at the concrete input `[[a,b],[x]]`. -/
theorem cart_product_correct_witness :
    cart_product [] [] [["a", "b"], ["x"]] = [["a", "x"], ["b", "x"]] ∧
    (["a", "x"] : List String).length = 2 := by
  have h := cart_product_correct [["a", "b"], ["x"]]
  exact ⟨by rw [h.1]; rfl, (h.2.2.1 ["a", "x"] (by decide)).1⟩

/-- C10: evaluating any tree whose node array is empty returns
`(success = true, truth = true, value = 0)` and leaves the whole state (local
predicate and function collections and the client) unchanged, for every fuel,
node id, mode flag and backend. -/
theorem evaluate_empty_tree {σ : Type} (pc : ProblemClient σ) (fuel : Nat) (tree : Tree)
    (ap us : Bool) (nid : Nat) (neg : Bool) (st : EState σ) (h : tree.nodes = []) :
    evaluate pc fuel tree ap us nid neg st = some ((true, true, 0), st) := by
  cases fuel <;> simp [evaluate, run, h]

/-- C10 witness: the empty tree at concrete arguments. -/
theorem evaluate_empty_tree_witness :
    evaluate unitClient 3 ⟨[]⟩ true false 7 true stPa = some ((true, true, 0), stPa) :=
  evaluate_empty_tree unitClient 3 ⟨[]⟩ true false 7 true stPa rfl

/-- C1: the PARAMETER case of the source lacks a `return` for an unresolved
parameter and falls through into the EXISTS case; on a one-node PARAMETER tree whose
parameter is the placeholder `?0`, with a local state holding `P(a)` (so the
candidate-instance list is non-empty), the fallthrough grounds the node and then
reads `children[0]` of a childless node — undefined behaviour, modelled as `none` —
instead of returning the claimed terminal `(true, false, 0)`. -/
theorem evaluate_parameter_fallthrough :
    evaluate unitClient 10 treeParam false true 0 false stPa = none := by
  rfl

/-- C7: double negation is the identity: evaluating `not (not X)` yields the same
result triple and the same final state as evaluating `X` directly (the two NOT hops
consume two units of fuel). -/
theorem evaluate_not_not {σ : Type} (pc : ProblemClient σ) (fuel : Nat) (tree : Tree)
    (ap us : Bool) (i : Nat) (neg : Bool) (st : EState σ) (n0 n1 : Node) (j k : Nat)
    (h0 : tree.nodes.get? i = some n0) (ht0 : n0.node_type = .not)
    (hc0 : n0.children.get? 0 = some j)
    (h1 : tree.nodes.get? j = some n1) (ht1 : n1.node_type = .not)
    (hc1 : n1.children.get? 0 = some k) :
    evaluate pc (fuel + 2) tree ap us i neg st = evaluate pc fuel tree ap us k neg st := by
  have hne : tree.nodes.isEmpty = false := by
    cases hn : tree.nodes with
    | nil => rw [hn] at h0; simp at h0
    | cons a l => rfl
  show run pc (fuel + 1 + 1) (.eval tree ap us i neg st) = _
  rw [run]
  simp only [hne, Bool.false_eq_true, if_false, h0, ht0, hc0]
  rw [run]
  simp only [hne, Bool.false_eq_true, if_false, h1, ht1, hc1, Bool.not_not]
  rfl

/-- C7 witness: `not (not (P a))` evaluated against the local state `{P(a)}` equals
the direct evaluation of `P a`. -/
theorem evaluate_not_not_witness :
    evaluate unitClient 7 treeNN false true 0 false stPa
      = evaluate unitClient 5 treeNN false true 2 false stPa :=
  evaluate_not_not unitClient 5 treeNN false true 0 false stPa
    { node_type := .not, children := [1] } { node_type := .not, children := [2] } 1 2
    rfl rfl rfl rfl rfl rfl

lemma countP_eraseP {α : Type} (p : α → Bool) :
    ∀ l : List α, (l.eraseP p).countP p = l.countP p - 1 := by
  intro l
  induction l with
  | nil => simp
  | cons x xs ih =>
    by_cases hx : p x
    · simp [List.eraseP_cons, hx, List.countP_cons]
    · simp [List.eraseP_cons, hx, List.countP_cons, ih]

lemma eraseP_of_countP_zero {α : Type} (p : α → Bool) :
    ∀ l : List α, l.countP p = 0 → l.eraseP p = l := by
  intro l
  induction l with
  | nil => intro _; rfl
  | cons x xs ih =>
    intro h
    rw [List.countP_cons] at h
    have hx : p x = false := by
      by_cases hpx : p x
      · simp [hpx] at h
      · simpa using hpx
    simp [List.eraseP_cons, hx, ih (by omega)]

lemma checkNodeEquality_self (nd : Node) : checkNodeEquality nd nd = true := by
  simp [checkNodeEquality]

/-- C3 counterexample: applying `not (P a)` (apply mode, local state) to a state
holding two occurrences of the fact `P(a)` erases only the first one, so the
resulting state still contains a fact matching `P(a)` — the claim's "removes that
fact" fails on such a state. -/
theorem not_predicate_apply_counterexample :
    evaluate unitClient 5 treeNotP true true 0 false ⟨(), [paNode, paNode], []⟩
      = some ((true, false, 0), ⟨(), [paNode], []⟩)
    ∧ ([paNode].any fun p => checkNodeEquality p paNode) = true :=
  ⟨rfl, rfl⟩

/-- C3 (amended): applying `not (P a)` under apply mode with the local backend
erases the first occurrence matching `P(a)` and reports `truth = false`, leaving the
function collection and the client untouched; a state with no matching occurrence is
left unchanged (in particular the fact is not added), and a state with at most one
matching occurrence contains none afterwards. -/
theorem not_predicate_apply {σ : Type} (pc : ProblemClient σ) (fuel : Nat) (tree : Tree)
    (i j : Nat) (st : EState σ) (n0 n1 : Node)
    (h0 : tree.nodes.get? i = some n0) (ht0 : n0.node_type = .not)
    (hc0 : n0.children.get? 0 = some j)
    (h1 : tree.nodes.get? j = some n1) (ht1 : n1.node_type = .predicate) :
    evaluate pc (fuel + 2) tree true true i false st
      = some ((true, false, 0),
          { st with predicates := st.predicates.eraseP (fun p => checkNodeEquality p n1) })
    ∧ (st.predicates.countP (fun p => checkNodeEquality p n1) = 0 →
        st.predicates.eraseP (fun p => checkNodeEquality p n1) = st.predicates)
    ∧ (st.predicates.countP (fun p => checkNodeEquality p n1) ≤ 1 →
        (st.predicates.eraseP (fun p => checkNodeEquality p n1)).countP
          (fun p => checkNodeEquality p n1) = 0) := by
  have hne : tree.nodes.isEmpty = false := by
    cases hn : tree.nodes with
    | nil => rw [hn] at h0; simp at h0
    | cons a l => rfl
  refine ⟨?_, eraseP_of_countP_zero _ _, ?_⟩
  · show run pc (fuel + 1 + 1) (.eval tree true true i false st) = _
    rw [run]
    simp only [hne, Bool.false_eq_true, if_false, h0, ht0, hc0]
    rw [run]
    simp only [hne, Bool.false_eq_true, if_false, h1, ht1]
    simp [predicateCase]
  · intro hle
    have := countP_eraseP (fun p => checkNodeEquality p n1) st.predicates
    omega

/-- C3 witness: `not (P a)` applied to the local state `{P(a)}` removes the fact. -/
theorem not_predicate_apply_witness :
    evaluate unitClient 5 treeNotP true true 0 false stPa
      = some ((true, false, 0), ⟨(), [], []⟩) :=
  (not_predicate_apply unitClient 3 treeNotP 0 1 stPa
    { node_type := .not, children := [1] } paNode rfl rfl rfl rfl rfl).1

/-- C6 counterexample: a local state already holding two occurrences of `P(a)` is
left unchanged by applying `(P a)` (the match is found, so nothing is inserted), so
applying it twice in sequence leaves two occurrences, not exactly one. -/
theorem predicate_apply_idempotent_counterexample :
    evaluate unitClient 3 treeP true true 0 false ⟨(), [paNode, paNode], []⟩
      = some ((true, true, 0), ⟨(), [paNode, paNode], []⟩)
    ∧ ([paNode, paNode].countP fun p => checkNodeEquality p paNode) = 2 :=
  ⟨rfl, rfl⟩

/-- C6 (amended): applying the PREDICATE node `(P a)` under apply mode with the
local backend never inserts a duplicate: one application yields a state whose count
of matching occurrences is `max(initial count, 1)`, a second application on that
state is a no-op, and whenever the initial state holds at most one matching
occurrence the final count is exactly one. -/
theorem predicate_apply_idempotent {σ : Type} (pc : ProblemClient σ) (fuel : Nat)
    (tree : Tree) (i : Nat) (st : EState σ) (nd : Node)
    (hn : tree.nodes.get? i = some nd) (ht : nd.node_type = .predicate) :
    ∃ p1 : List Node,
      evaluate pc (fuel + 1) tree true true i false st
        = some ((true, true, 0), { st with predicates := p1 })
      ∧ evaluate pc (fuel + 1) tree true true i false { st with predicates := p1 }
          = some ((true, true, 0), { st with predicates := p1 })
      ∧ p1.countP (fun p => checkNodeEquality p nd)
          = max (st.predicates.countP (fun p => checkNodeEquality p nd)) 1
      ∧ (st.predicates.countP (fun p => checkNodeEquality p nd) ≤ 1 →
          p1.countP (fun p => checkNodeEquality p nd) = 1) := by
  have hne : tree.nodes.isEmpty = false := by
    cases hns : tree.nodes with
    | nil => rw [hns] at hn; simp at hn
    | cons a l => rfl
  have hrun : ∀ st' : EState σ,
      evaluate pc (fuel + 1) tree true true i false st'
        = predicateCase pc true true false nd st' := by
    intro st'
    show run pc (fuel + 1) (.eval tree true true i false st') = _
    rw [run]
    simp only [hne, Bool.false_eq_true, if_false, hn, ht]
  by_cases hAny : st.predicates.any (fun p => checkNodeEquality p nd)
  · have hpos : 0 < st.predicates.countP (fun p => checkNodeEquality p nd) := by
      rw [List.countP_pos_iff]
      obtain ⟨a, ha, hpa⟩ := List.any_eq_true.mp hAny
      exact ⟨a, ha, hpa⟩
    refine ⟨st.predicates, ?_, ?_, ?_, ?_⟩
    · rw [hrun]; simp [predicateCase, hAny]
    · rw [hrun]; simp [predicateCase, hAny]
    · rw [Nat.max_eq_left hpos]
    · intro hle; omega
  · have hzero : st.predicates.countP (fun p => checkNodeEquality p nd) = 0 := by
      rw [List.countP_eq_zero]
      intro a ha
      intro hpa
      exact hAny (List.any_eq_true.mpr ⟨a, ha, hpa⟩)
    have hAny2 : (st.predicates ++ [nd]).any (fun p => checkNodeEquality p nd) = true := by
      rw [List.any_append]
      simp [checkNodeEquality_self]
    refine ⟨st.predicates ++ [nd], ?_, ?_, ?_, ?_⟩
    · rw [hrun]; simp [predicateCase, hAny]
    · rw [hrun]; simp [predicateCase, hAny2]
    · rw [List.countP_append, hzero]
      simp [checkNodeEquality_self]
    · intro _
      rw [List.countP_append, hzero]
      simp [checkNodeEquality_self]

/-- C6 witness: applying `(P a)` to the empty local state yields a state holding
exactly one occurrence of `P(a)`. -/
theorem predicate_apply_idempotent_witness :
    ∃ p1 : List Node,
      evaluate unitClient 3 treeP true true 0 false ⟨(), [], []⟩
        = some ((true, true, 0), ⟨(), p1, []⟩)
      ∧ p1.countP (fun p => checkNodeEquality p paNode) = 1 := by
  obtain ⟨p1, h1, _, _, h4⟩ :=
    predicate_apply_idempotent unitClient 2 treeP 0 ⟨(), [], []⟩ paNode rfl rfl
  exact ⟨p1, h1, h4 (by decide)⟩

lemma conj_eq_evalChildren {σ : Type} (pc : ProblemClient σ) :
    ∀ (fuel : Nat) (tree : Tree) (ap us neg : Bool) (cs : List Nat) (s t : Bool)
      (st : EState σ),
    run pc fuel (.conj tree ap us neg cs s t st)
      = match evalChildren pc fuel tree ap us neg cs st with
        | none => none
        | some (rs, st') =>
            some ((s && rs.all (fun r => r.1), t && rs.all (fun r => r.2.1), 0), st') := by
  intro fuel
  induction fuel with
  | zero =>
    intro tree ap us neg cs s t st
    cases cs <;> simp [run, evalChildren]
  | succ fuel ih =>
    intro tree ap us neg cs s t st
    cases cs with
    | nil => simp [run, evalChildren]
    | cons c cs' =>
      rw [run]
      simp only [evalChildren]
      cases hres : run pc fuel (.eval tree ap us c neg st) with
      | none => rfl
      | some rst =>
        obtain ⟨r, st'⟩ := rst
        simp only [ih]
        cases hcs : evalChildren pc fuel tree ap us neg cs' st' with
        | none => rfl
        | some rsst =>
          obtain ⟨rs, st''⟩ := rsst
          simp [Bool.and_assoc]

lemma disj_eq_evalChildren {σ : Type} (pc : ProblemClient σ) :
    ∀ (fuel : Nat) (tree : Tree) (ap us neg : Bool) (cs : List Nat) (s t : Bool)
      (st : EState σ),
    run pc fuel (.disj tree ap us neg cs s t st)
      = match evalChildren pc fuel tree ap us neg cs st with
        | none => none
        | some (rs, st') =>
            some ((s && rs.all (fun r => r.1), t || rs.any (fun r => r.2.1), 0), st') := by
  intro fuel
  induction fuel with
  | zero =>
    intro tree ap us neg cs s t st
    cases cs <;> simp [run, evalChildren]
  | succ fuel ih =>
    intro tree ap us neg cs s t st
    cases cs with
    | nil => simp [run, evalChildren]
    | cons c cs' =>
      rw [run]
      simp only [evalChildren]
      cases hres : run pc fuel (.eval tree ap us c neg st) with
      | none => rfl
      | some rst =>
        obtain ⟨r, st'⟩ := rst
        simp only [ih]
        cases hcs : evalChildren pc fuel tree ap us neg cs' st' with
        | none => rfl
        | some rsst =>
          obtain ⟨rs, st''⟩ := rsst
          simp [Bool.and_assoc, Bool.or_assoc]

/-- C4: an AND (resp. OR) node evaluates every child in order — the threaded state
passes through all of them, so no child is skipped on an intermediate failure — and
returns `success` = conjunction of all children's `success`, `truth` = conjunction
(resp. disjunction) of all children's `truth`, and `value = 0`. -/
theorem and_or_children {σ : Type} (pc : ProblemClient σ) (fuel : Nat) (tree : Tree)
    (ap us : Bool) (i : Nat) (neg : Bool) (st : EState σ) (nd : Node)
    (hn : tree.nodes.get? i = some nd) :
    (nd.node_type = .and →
      evaluate pc (fuel + 1) tree ap us i neg st
        = match evalChildren pc fuel tree ap us neg nd.children st with
          | none => none
          | some (rs, st') =>
              some ((rs.all (fun r => r.1), rs.all (fun r => r.2.1), 0), st'))
    ∧ (nd.node_type = .or →
      evaluate pc (fuel + 1) tree ap us i neg st
        = match evalChildren pc fuel tree ap us neg nd.children st with
          | none => none
          | some (rs, st') =>
              some ((rs.all (fun r => r.1), rs.any (fun r => r.2.1), 0), st')) := by
  have hne : tree.nodes.isEmpty = false := by
    cases hns : tree.nodes with
    | nil => rw [hns] at hn; simp at hn
    | cons a l => rfl
  constructor
  · intro ht
    show run pc (fuel + 1) (.eval tree ap us i neg st) = _
    rw [run]
    simp only [hne, Bool.false_eq_true, if_false, hn, ht]
    rw [conj_eq_evalChildren]
    simp
  · intro ht
    show run pc (fuel + 1) (.eval tree ap us i neg st) = _
    rw [run]
    simp only [hne, Bool.false_eq_true, if_false, hn, ht]
    rw [disj_eq_evalChildren]
    simp

/-- C4 witness: `and (P a) (P a)` against the local state `{P(a)}`. -/
theorem and_or_children_witness :
    evaluate unitClient 9 treeAnd false true 0 false stPa = some ((true, true, 0), stPa) := by
  have h := (and_or_children unitClient 8 treeAnd false true 0 false stPa
    { node_type := .and, children := [1, 2] } rfl).1 rfl
  rw [h]
  rfl

lemma existsLoop_cons {σ : Type} (pc : ProblemClient σ) (fuel : Nat) (tree : Tree)
    (ap us : Bool) (nid : Nat) (neg : Bool) (params : List Param) (vs : List String)
    (rest : List (List String)) (st0 : EState σ) :
    run pc (fuel + 1) (.existsLoop tree ap us nid neg params (vs :: rest) st0)
      = match evalCandidate pc fuel tree ap us nid neg params vs st0 with
        | none => none
        | some (r, st') =>
            if r.2.1 then some (r, st')
            else run pc fuel (.existsLoop tree ap us nid neg params rest st') := by
  rw [run]
  unfold evalCandidate
  cases candidateChild fuel tree nid params vs with
  | none => rfl
  | some trc => rfl

/-- C2: the EXISTS case first builds the candidate tuples (Cartesian product of one
candidate list per quantified parameter) and then walks them in enumeration order:
a tuple whose grounded body evaluates with `truth = true` is returned as the overall
result with no further candidate evaluated; a tuple evaluating to `truth = false`
passes its threaded state to the remaining tuples; and an exhausted candidate list
returns `success = true, truth = false, value = 0`. -/
theorem exists_short_circuit {σ : Type} (pc : ProblemClient σ) (fuel : Nat) (tree : Tree)
    (ap us : Bool) (i : Nat) (neg : Bool) (st : EState σ) (nd : Node)
    (hn : tree.nodes.get? i = some nd) (ht : nd.node_type = .exists_) :
    evaluate pc (fuel + 1) tree ap us i neg st
      = evalExistsLoop pc fuel tree ap us i neg nd.parameters
          (cart_product [] [] (existsCandidateLists pc us st nd.parameters)) st
    ∧ (∀ (vs : List String) (rest : List (List String)) (st0 : EState σ) (r : EvalRes)
          (st' : EState σ),
        evalCandidate pc fuel tree ap us i neg nd.parameters vs st0 = some (r, st') →
        (r.2.1 = true →
          evalExistsLoop pc (fuel + 1) tree ap us i neg nd.parameters (vs :: rest) st0
            = some (r, st'))
        ∧ (r.2.1 = false →
          evalExistsLoop pc (fuel + 1) tree ap us i neg nd.parameters (vs :: rest) st0
            = evalExistsLoop pc fuel tree ap us i neg nd.parameters rest st'))
    ∧ (∀ st0 : EState σ,
        evalExistsLoop pc fuel tree ap us i neg nd.parameters [] st0
          = some ((true, false, 0), st0)) := by
  have hne : tree.nodes.isEmpty = false := by
    cases hns : tree.nodes with
    | nil => rw [hns] at hn; simp at hn
    | cons a l => rfl
  refine ⟨?_, ?_, ?_⟩
  · show run pc (fuel + 1) (.eval tree ap us i neg st) = _
    rw [run]
    simp only [hne, Bool.false_eq_true, if_false, hn, ht]
    rfl
  · intro vs rest st0 r st' hc
    constructor
    · intro htrue
      show run pc (fuel + 1) _ = _
      rw [existsLoop_cons, hc]
      simp [htrue]
    · intro hfalse
      show run pc (fuel + 1) _ = _
      rw [existsLoop_cons, hc]
      simp [hfalse, evalExistsLoop]
  · intro st0
    show run pc fuel (.existsLoop tree ap us i neg nd.parameters [] st0) = _
    cases fuel <;> rfl

/-- C2 witness: `exists (?0) (P ?0)` over the local state `{P(a)}` — the claim
theorem's first conjunct at this input (the candidate tuples reduce to `[[a]]`). -/
theorem exists_short_circuit_witness :
    evaluate unitClient 5 treeEx false true 0 false stPa
      = evalExistsLoop unitClient 4 treeEx false true 0 false [⟨"?0", ""⟩] [["a"]] stPa :=
  (exists_short_circuit unitClient 4 treeEx false true 0 false stPa
    { node_type := .exists_, parameters := [⟨"?0", ""⟩], children := [1] } rfl rfl).1

lemma updateFirst_eq_none_iff {α : Type} (p : α → Bool) (f : α → α) :
    ∀ l : List α, updateFirst p f l = none ↔ l.find? p = none := by
  intro l
  induction l with
  | nil => simp [updateFirst]
  | cons x xs ih =>
    by_cases hx : p x
    · simp [updateFirst, List.find?_cons, hx]
    · simp [updateFirst, List.find?_cons, hx, ih]

lemma ratAbs_abs (q : Rat) : ratAbs q = |q| := by
  unfold ratAbs
  by_cases h : q < 0
  · rw [if_pos h, abs_of_neg h]
  · rw [if_neg h, abs_of_nonneg (not_lt.mp h)]

lemma eval_binary_step {σ : Type} (pc : ProblemClient σ) (fuel : Nat) (tree : Tree)
    (ap us : Bool) (i : Nat) (neg : Bool) (st st1 st2 : EState σ) (nd : Node)
    (c0 c1 : Nat) (l r : EvalRes)
    (hn : tree.nodes.get? i = some nd)
    (h0 : nd.children.get? 0 = some c0) (h1 : nd.children.get? 1 = some c1)
    (hl : evaluate pc fuel tree ap us c0 neg st = some (l, st1))
    (hr : evaluate pc fuel tree ap us c1 neg st1 = some (r, st2)) :
    (nd.node_type = .expression →
      evaluate pc (fuel + 1) tree ap us i neg st = expressionCase tree nd neg l r st2)
    ∧ (nd.node_type = .functionModifier →
      evaluate pc (fuel + 1) tree ap us i neg st = modifierCase pc tree nd ap us l r st2) := by
  have hne : tree.nodes.isEmpty = false := by
    cases hns : tree.nodes with
    | nil => rw [hns] at hn; simp at hn
    | cons a ll => rfl
  unfold evaluate at hl hr
  constructor
  · intro ht
    show run pc (fuel + 1) (.eval tree ap us i neg st) = _
    rw [run]
    simp only [hne, Bool.false_eq_true, if_false, hn, ht, h0, h1, hl, hr]
  · intro ht
    show run pc (fuel + 1) (.eval tree ap us i neg st) = _
    rw [run]
    simp only [hne, Bool.false_eq_true, if_false, hn, ht, h0, h1, hl, hr]

/-- C5 counterexample: `(scale-down 6 2)` under apply mode with the local backend
and an empty function collection: both children succeed and the right operand `2` is
far above the `1e-5` guard, yet the node fails (`success = false`, with the computed
value `3`), because the commit step cannot locate the left operand's function
identity — contradicting the claim's "fails if and only if `|right| ≤ 1e-5`". -/
theorem div_guard_counterexample :
    evaluate unitClient 2 treeSD true true 1 false ⟨(), [], []⟩
      = some ((true, true, 6), ⟨(), [], []⟩)
    ∧ evaluate unitClient 2 treeSD true true 2 false ⟨(), [], []⟩
      = some ((true, true, 2), ⟨(), [], []⟩)
    ∧ evaluate unitClient 3 treeSD true true 0 false ⟨(), [], []⟩
      = some ((false, false, 3), ⟨(), [], []⟩)
    ∧ epsDiv < |(2 : Rat)| :=
  ⟨rfl, rfl,
    by norm_num [evaluate, run, treeSD, modifierCase, epsDiv, ratAbs, updateFirst,
      checkNodeEquality],
    by norm_num [epsDiv]⟩

/-- C5 (amended): for an ARITH_DIV node, and for a scale-down node in query mode,
whose children both evaluate successfully, the node fails exactly when
`|right| ≤ 1e-5`, and on success the value is `left / right`; a scale-down node in
apply mode with the local backend additionally fails when the left operand's
function identity is not found in the function collection. -/
theorem div_guard {σ : Type} (pc : ProblemClient σ) (fuel : Nat) (tree : Tree)
    (ap us : Bool) (i : Nat) (neg : Bool) (st st1 st2 : EState σ) (nd : Node)
    (c0 c1 : Nat) (l r : EvalRes)
    (hn : tree.nodes.get? i = some nd)
    (h0 : nd.children.get? 0 = some c0) (h1 : nd.children.get? 1 = some c1)
    (hl : evaluate pc fuel tree ap us c0 neg st = some (l, st1)) (hls : l.1 = true)
    (hr : evaluate pc fuel tree ap us c1 neg st1 = some (r, st2)) (hrs : r.1 = true) :
    (nd.node_type = .expression → nd.expression_type = .arithDiv →
      ∃ res : EvalRes, evaluate pc (fuel + 1) tree ap us i neg st = some (res, st2)
        ∧ (res.1 = false ↔ |r.2.2| ≤ epsDiv)
        ∧ (epsDiv < |r.2.2| → res.2.2 = l.2.2 / r.2.2))
    ∧ (nd.node_type = .functionModifier → nd.modifier_type = .scaleDown → ap = false →
      ∃ res : EvalRes, evaluate pc (fuel + 1) tree ap us i neg st = some (res, st2)
        ∧ (res.1 = false ↔ |r.2.2| ≤ epsDiv)
        ∧ (epsDiv < |r.2.2| → res.2.2 = l.2.2 / r.2.2))
    ∧ (∀ lnd : Node, nd.node_type = .functionModifier → nd.modifier_type = .scaleDown →
        ap = true → us = true → tree.nodes.get? c0 = some lnd →
      ∃ (res : EvalRes) (st3 : EState σ),
        evaluate pc (fuel + 1) tree ap us i neg st = some (res, st3)
        ∧ (res.1 = false ↔ (|r.2.2| ≤ epsDiv ∨
            st2.functions.find? (fun f => checkNodeEquality f lnd) = none))
        ∧ (res.1 = true → res.2.2 = l.2.2 / r.2.2)) := by
  have hstep := eval_binary_step pc fuel tree ap us i neg st st1 st2 nd c0 c1 l r hn h0 h1 hl hr
  refine ⟨?_, ?_, ?_⟩
  · intro ht hety
    rw [hstep.1 ht]
    by_cases heps : epsDiv < |r.2.2|
    · refine ⟨(true, false, l.2.2 / r.2.2), ?_, ?_, fun _ => rfl⟩
      · simp [expressionCase, hls, hrs, hety, ratAbs_abs, heps]
      · exact iff_of_false (by simp) (not_le.mpr heps)
    · refine ⟨(false, false, 0), ?_, ?_, ?_⟩
      · simp [expressionCase, hls, hrs, hety, ratAbs_abs, heps]
      · exact iff_of_true rfl (not_lt.mp heps)
      · intro h; exact absurd h heps
  · intro ht hmod hap
    subst hap
    rw [hstep.2 ht]
    by_cases heps : epsDiv < |r.2.2|
    · refine ⟨(true, false, l.2.2 / r.2.2), ?_, ?_, fun _ => rfl⟩
      · simp [modifierCase, hls, hrs, hmod, ratAbs_abs, heps]
      · exact iff_of_false (by simp) (not_le.mpr heps)
    · refine ⟨(false, false, 0), ?_, ?_, ?_⟩
      · simp [modifierCase, hls, hrs, hmod, ratAbs_abs, heps]
      · exact iff_of_true rfl (not_lt.mp heps)
      · intro h; exact absurd h heps
  · intro lnd ht hmod hap hus hlnd
    subst hap; subst hus
    have h0g : nd.children[0]? = some c0 := by rw [← List.get?_eq_getElem?]; exact h0
    have hlndg : tree.nodes[c0]? = some lnd := by rw [← List.get?_eq_getElem?]; exact hlnd
    rw [hstep.2 ht]
    by_cases heps : epsDiv < |r.2.2|
    · cases hupd : updateFirst (fun f => checkNodeEquality f lnd)
          (fun f => { f with value := l.2.2 / r.2.2 }) st2.functions with
      | none =>
        refine ⟨(false, false, l.2.2 / r.2.2), st2, ?_, ?_, ?_⟩
        · simp [modifierCase, hls, hrs, hmod, ratAbs_abs, heps, h0g, hlndg, hupd]
        · refine iff_of_true rfl (Or.inr ?_)
          rw [← updateFirst_eq_none_iff (fun f => checkNodeEquality f lnd)
            (fun f => { f with value := l.2.2 / r.2.2 })]
          exact hupd
        · intro h; simp at h
      | some fs =>
        refine ⟨(true, false, l.2.2 / r.2.2), { st2 with functions := fs }, ?_, ?_, fun _ => rfl⟩
        · simp [modifierCase, hls, hrs, hmod, ratAbs_abs, heps, h0g, hlndg, hupd]
        · refine iff_of_false (by simp) ?_
          rintro (hc | hc)
          · exact absurd heps (not_lt.mpr hc)
          · rw [← updateFirst_eq_none_iff (fun f => checkNodeEquality f lnd)
              (fun f => { f with value := l.2.2 / r.2.2 })] at hc
            rw [hupd] at hc
            simp at hc
    · refine ⟨(false, false, 0), st2, ?_, ?_, ?_⟩
      · simp [modifierCase, hls, hrs, hmod, ratAbs_abs, heps]
      · exact iff_of_true rfl (Or.inl (not_lt.mp heps))
      · intro h; simp at h

/-- C5 witness: `(6 / 1)` in query mode succeeds with value `6 / 1`. -/
theorem div_guard_witness :
    ∃ res : EvalRes,
      evaluate unitClient 3 treeDiv false true 0 false ⟨(), [], []⟩ = some (res, ⟨(), [], []⟩)
      ∧ (res.1 = false ↔ |((true, true, (1 : Rat)) : EvalRes).2.2| ≤ epsDiv)
      ∧ (epsDiv < |((true, true, (1 : Rat)) : EvalRes).2.2| →
          res.2.2 = ((true, true, (6 : Rat)) : EvalRes).2.2
            / ((true, true, (1 : Rat)) : EvalRes).2.2) :=
  (div_guard unitClient 2 treeDiv false true 0 false ⟨(), [], []⟩ ⟨(), [], []⟩ ⟨(), [], []⟩
    { node_type := .expression, expression_type := .arithDiv, children := [1, 2] } 1 2
    (true, true, 6) (true, true, 1) rfl rfl rfl rfl rfl rfl rfl).1 rfl rfl

lemma modifyAt_append {α : Type} (l1 : List α) (x : α) (l2 : List α) (f : α → α) :
    modifyAt (l1 ++ x :: l2) l1.length f = l1 ++ f x :: l2 := by
  induction l1 with
  | nil => rfl
  | cons a l ih => simp [modifyAt, ih]

lemma existsParamFor_amended (replace : List String) (i : Nat) (p : Int)
    (hRep : replace.length < 2 ^ 32) (hlo : -(2 ^ 31) ≤ p) (hhi : p < 2 ^ 31) :
    existsParamFor replace i p
      = if i < replace.length ∧ 0 ≤ p ∧ p.toNat < replace.length
        then { name := replace.getD p.toNat "", type := "" }
        else { name := "?" ++ toString p, type := "" } := by
  have e31 : (2 : Int) ^ 31 = 2147483648 := by norm_num
  have e32 : (2 : Nat) ^ 32 = 4294967296 := by norm_num
  rw [e31] at hlo hhi
  rw [e32] at hRep
  by_cases h0 : 0 ≤ p
  · have hts : intAsSizeT p = p.toNat := by
      unfold intAsSizeT
      have hm : p % (2 : Int) ^ 64 = p := by
        have : (2 : Int) ^ 64 = 18446744073709551616 := by norm_num
        rw [this]
        omega
      rw [hm]
    unfold existsParamFor
    rw [hts]
    by_cases hi : i < replace.length ∧ p.toNat < replace.length
    · have hi2 : i < replace.length ∧ 0 ≤ p ∧ p.toNat < replace.length := ⟨hi.1, h0, hi.2⟩
      simp [hi, hi2, h0]
    · have hi2 : ¬(i < replace.length ∧ 0 ≤ p ∧ p.toNat < replace.length) := by
        intro hcon
        exact hi ⟨hcon.1, hcon.2.2⟩
      simp [hi, hi2]
  · have hlarge : ¬ intAsSizeT p < replace.length := by
      unfold intAsSizeT
      have hm : p % (2 : Int) ^ 64 = p + 18446744073709551616 := by
        have : (2 : Int) ^ 64 = 18446744073709551616 := by norm_num
        rw [this]
        omega
      rw [hm]
      omega
    have hc1 : ¬(i < replace.length ∧ intAsSizeT p < replace.length) := by
      intro hcon; exact hlarge hcon.2
    have hc2 : ¬(i < replace.length ∧ 0 ≤ p ∧ p.toNat < replace.length) := by
      intro hcon; exact h0 hcon.2.1
    unfold existsParamFor
    simp [hc1, hc2]

/-- C9 counterexample: lowering an Exists with quantified slots `[5, 0]` against the
substitution list `["a"]`: the parameter at position `1` has slot `0`, which falls
within the given substitution list, yet the code resolves it to the placeholder
`?0` — not to `replace[0] = "a"` — because the source also requires the parameter's
position `i` to be below `replace.size()`. -/
theorem exists_getTree_counterexample :
    (existsGetTree condLowerP [5, 0] ⟨[]⟩ ["a"]).2.parameters
      = [⟨"?5", ""⟩, ⟨"?0", ""⟩]
    ∧ ([5, 0] : List Int).get? 1 = some 0
    ∧ ((0 : Int).toNat < (["a"] : List String).length)
    ∧ ("?0" : String) ≠ "a" :=
  ⟨rfl, rfl, by decide, by decide⟩

/-- C9 (amended): `Exists::getTree` appends exactly one EXISTS node whose id is the
node array's length at the time of the call; the quantified parameter at position
`i` with slot `p` resolves to `replace[p]` when both the position `i` and the slot
`p` are within the substitution list, and otherwise to the placeholder `?<slot>`;
the nested condition is lowered into the extended array and its root id is recorded
as the EXISTS node's single child.  (`condLower` is the abstract nested-condition
lowering, assumed append-only as lowering always is; parameter slots are C++ `int`
values and the substitution list is shorter than `2^32`.) -/
theorem exists_getTree_amended (condLower : Tree → Tree × Nat) (params : List Int)
    (tree : Tree) (replace : List String)
    (hAppend : ∀ t : Tree, ∃ rest : List Node, (condLower t).1.nodes = t.nodes ++ rest)
    (hRep : replace.length < 2 ^ 32)
    (hParams : ∀ p ∈ params, -(2 ^ 31) ≤ p ∧ p < 2 ^ 31) :
    ∃ (ps : List Param) (childId : Nat) (rest : List Node),
      ps.length = params.length
      ∧ (∀ (i : Nat) (p : Int), params.get? i = some p →
          ps.get? i = some
            (if i < replace.length ∧ 0 ≤ p ∧ p.toNat < replace.length
             then { name := replace.getD p.toNat "", type := "" }
             else { name := "?" ++ toString p, type := "" }))
      ∧ (existsGetTree condLower params tree replace).2
          = { node_type := .exists_, node_id := tree.nodes.length, parameters := ps }
      ∧ childId = (condLower ⟨tree.nodes
          ++ [{ node_type := .exists_, node_id := tree.nodes.length, parameters := ps }]⟩).2
      ∧ (existsGetTree condLower params tree replace).1.nodes
          = tree.nodes
            ++ { node_type := .exists_, node_id := tree.nodes.length, parameters := ps,
                 children := [childId] } :: rest := by
  obtain ⟨rest, hrest⟩ := hAppend
    ⟨tree.nodes ++
      [{ node_type := .exists_, node_id := tree.nodes.length,
         parameters := params.enum.map (fun ip => existsParamFor replace ip.1 ip.2) }]⟩
  refine ⟨params.enum.map (fun ip => existsParamFor replace ip.1 ip.2),
    (condLower ⟨tree.nodes ++
      [{ node_type := .exists_, node_id := tree.nodes.length,
         parameters := params.enum.map (fun ip => existsParamFor replace ip.1 ip.2) }]⟩).2,
    rest, ?_, ?_, ?_, rfl, ?_⟩
  · simp
  case refine_3 => rfl
  · intro i p hget
    rw [List.get?_map, List.get?_enum, hget]
    have hp := hParams p (List.get?_mem hget)
    simp only [Option.map_some']
    rw [existsParamFor_amended replace i p hRep hp.1 hp.2]
  · show modifyAt _ _ _ = _
    rw [hrest]
    have hsplit : tree.nodes
        ++ [{ node_type := .exists_, node_id := tree.nodes.length,
              parameters := params.enum.map (fun ip => existsParamFor replace ip.1 ip.2) }]
        ++ rest
        = tree.nodes
          ++ ({ node_type := .exists_, node_id := tree.nodes.length,
                parameters := params.enum.map (fun ip => existsParamFor replace ip.1 ip.2) }
              : Node) :: rest := by
      simp
    rw [hsplit, modifyAt_append]
    rfl

/-- C9 witness: the amended theorem instantiated at one quantified slot `0` with
substitution list `["a"]`: the parameter resolves to `a`. -/
theorem exists_getTree_witness :
    (existsGetTree condLowerP [0] ⟨[]⟩ ["a"]).2.parameters.get? 0 = some ⟨"a", ""⟩ := by
  obtain ⟨ps, childId, rest, hlen, hpar, hnode, hchild, htree⟩ :=
    exists_getTree_amended condLowerP [0] ⟨[]⟩ ["a"]
      (fun t => ⟨[paNode], rfl⟩) (by norm_num)
      (by intro p hp; simp at hp; subst hp; constructor <;> norm_num)
  rw [hnode]
  have := hpar 0 0 rfl
  simpa using this

end plansys2
